import Mathlib

/-!
Verification development for the `jquantsapi` client library.

The definitions below are shallow embeddings of `jquantsapi/client_json.py`
and `jquantsapi/client.py`: the credential store and token manager
(`JSONClient.__init__`, `get_refresh_token`, `get_id_token`), the tenacity
retry wrapper around `get_id_token`, the `date_range` generator, and the
concurrent range fetch (`Client.get_price_range`).  Machine integers and
timestamps are modelled as `Int` (UTC epoch seconds for the token manager,
wall-clock minutes for `date_range`); fallible Python code returns
`Except`-style results carrying the raised exception class.
-/

namespace Jquants

/-- An upstream HTTP error (`requests.exceptions.HTTPError` produced by
`raise_for_status`), carrying the response status code. -/
structure HTTPError where
  status_code : ℕ
  deriving DecidableEq, Repr

/-- Python exception classes raised by the modelled code paths. -/
inductive PyError where
  | httpError (e : HTTPError)
  | valueError
  | typeError
  deriving DecidableEq, Repr

/-- Network requests issued by the token manager (the two `_post` targets of
`client_json.py`). -/
inductive NetCall where
  | post_auth_user (mailaddress password : String)
  | post_auth_refresh (refreshtoken : String)
  deriving DecidableEq, Repr

/-- Credential state held on a `JSONClient` instance (`self._mail_address`,
`self._password`, `self._refresh_token`, `self._refresh_token_expire`,
`self._id_token`, `self._id_token_expire`).  Expiry timestamps are UTC epoch
seconds. -/
structure ClientState where
  mail_address : String
  password : String
  refresh_token : String
  refresh_token_expire : ℤ
  id_token : String
  id_token_expire : ℤ
  deriving DecidableEq, Repr

/-- The upstream world visible to one token-manager call: the current clock
(`datetime.now(timezone.utc)`) and the two auth endpoints.
`auth_user mail password` models `POST /token/auth_user` returning the
`refreshToken` field; `auth_refresh rt` models
`POST /token/auth_refresh?refreshtoken=rt` returning the `idToken` field. -/
structure Env where
  now : ℤ
  auth_user : String → String → Except HTTPError String
  auth_refresh : String → Except HTTPError String

/-- The Python check `"@" in mail_address`: the string contains the character
`@`.  Defined over the character list so that it evaluates in the kernel. -/
def hasAtSign (m : String) : Bool := m.data.contains '@'

/-- Model of `JSONClient.__init__` (client_json.py lines 83-126).  The
`config_*` arguments are the values produced by `_load_config` (empty string
when no config file or environment variable supplies a credential); the three
`Option` arguments are the constructor parameters, which override the config
values when not `None`.  `now` is the construction time. -/
def JSONClient.init (config_mail config_password config_refresh : String)
    (refresh_token mail_address password : Option String) (now : ℤ) :
    Except PyError ClientState :=
  let m := mail_address.getD config_mail
  let p := password.getD config_password
  let r := refresh_token.getD config_refresh
  let refresh_expire : ℤ := if r ≠ "" then now + 6 * 86400 else now
  let st : ClientState :=
    { mail_address := m, password := p, refresh_token := r,
      refresh_token_expire := refresh_expire, id_token := "", id_token_expire := now }
  if (m = "" ∨ p = "") ∧ r = "" then
    .error .valueError
  else if m ≠ "" ∧ ¬ hasAtSign m then
    .error .valueError
  else
    .ok st

/-- Decidable equality for `Except`, needed so runs of the modelled code can be
compared by `decide`. -/
instance exceptDecEq {ε α : Type} [DecidableEq ε] [DecidableEq α] :
    DecidableEq (Except ε α) := fun x y =>
  match x, y with
  | .ok a, .ok b =>
      if h : a = b then .isTrue (by rw [h]) else .isFalse (by simp [h])
  | .error a, .error b =>
      if h : a = b then .isTrue (by rw [h]) else .isFalse (by simp [h])
  | .ok _, .error _ => .isFalse (by simp)
  | .error _, .ok _ => .isFalse (by simp)

/-- Outcome of a token-manager operation: the Python return value or raised
exception, the instance state afterwards, and the network calls performed. -/
structure RTRun where
  result : Except PyError String
  state : ClientState
  calls : List NetCall
  deriving DecidableEq, Repr

/-- Model of `JSONClient.get_refresh_token` (client_json.py lines 289-323):
return the cached refresh token while unexpired, otherwise log in with the
given or stored mail address and password. -/
def get_refresh_token (env : Env) (st : ClientState)
    (mail_address password : Option String) : RTRun :=
  if st.refresh_token_expire > env.now then
    ⟨.ok st.refresh_token, st, []⟩
  else
    let m := mail_address.getD st.mail_address
    let p := password.getD st.password
    if m = "" ∨ p = "" then
      ⟨.error .valueError, st, []⟩
    else if ¬ hasAtSign m then
      ⟨.error .valueError, st, []⟩
    else
      match env.auth_user m p with
      | .error e => ⟨.error (.httpError e), st, [.post_auth_user m p]⟩
      | .ok refreshToken =>
          ⟨.ok refreshToken,
           { st with refresh_token := refreshToken,
                     refresh_token_expire := env.now + 6 * 86400 },
           [.post_auth_user m p]⟩

/-- The refresh-token acquisition step of `get_id_token` (client_json.py lines
342-345): use the explicit `refresh_token` argument when one was passed,
otherwise obtain one through `get_refresh_token`. -/
def acquire_refresh (env : Env) (st : ClientState) (refresh_token : Option String) : RTRun :=
  match refresh_token with
  | some rt => ⟨.ok rt, st, []⟩
  | none => get_refresh_token env st none none

/-- Result of one attempt of the `get_id_token` body: a returned id token, the
`TokenAuthRefreshBadRequestException` raised for the tenacity wrapper to
retry, or any other propagated exception. -/
inductive AttemptResult where
  | ok (id_token : String)
  | retryExc
  | err (e : PyError)
  deriving DecidableEq, Repr

/-- Outcome of one `get_id_token` attempt together with the instance state
afterwards and the network calls performed. -/
structure AttemptRun where
  result : AttemptResult
  state : ClientState
  calls : List NetCall
  deriving DecidableEq, Repr

/-- The cleared credential state written just before the retryable exception
is raised (client_json.py lines 363-367): both tokens blanked, both expiries
set to the current time. -/
def clearedTokens (now : ℤ) (st : ClientState) : ClientState :=
  { st with refresh_token := "", refresh_token_expire := now,
            id_token := "", id_token_expire := now }

/-- Model of one attempt of `JSONClient.get_id_token` (client_json.py lines
330-374): the decorated function body, without the tenacity retry wrapper.
Returns the cached id token while unexpired; otherwise acquires a refresh
token, exchanges it at `auth_refresh`, and on an HTTP error either clears both
cached credentials and raises the retryable exception (only when no explicit
refresh token was passed, the status is 400, and mail/password are stored) or
re-raises the HTTP error unchanged. -/
def get_id_token_attempt (env : Env) (st : ClientState) (refresh_token : Option String) :
    AttemptRun :=
  if st.id_token_expire > env.now then
    ⟨.ok st.id_token, st, []⟩
  else
    match acquire_refresh env st refresh_token with
    | ⟨.error e, st₀, calls₀⟩ => ⟨.err e, st₀, calls₀⟩
    | ⟨.ok rt, st₀, calls₀⟩ =>
      match env.auth_refresh rt with
      | .ok idToken =>
          ⟨.ok idToken,
           { st₀ with id_token := idToken, id_token_expire := env.now + 23 * 3600 },
           calls₀ ++ [.post_auth_refresh rt]⟩
      | .error e =>
          if refresh_token = none ∧ e.status_code = 400
              ∧ st₀.mail_address ≠ "" ∧ st₀.password ≠ "" then
            ⟨.retryExc, clearedTokens env.now st₀, calls₀ ++ [.post_auth_refresh rt]⟩
          else
            ⟨.err (.httpError e), st₀, calls₀ ++ [.post_auth_refresh rt]⟩

/-- C2: when the cached access (id) token is still valid, `get_id_token`
returns it unchanged, performs no network call, and leaves every credential
field and expiry untouched. -/
theorem get_id_token_cached_hit (env : Env) (st : ClientState) (rt : Option String)
    (h : st.id_token_expire > env.now) :
    get_id_token_attempt env st rt = ⟨.ok st.id_token, st, []⟩ := by
  simp [get_id_token_attempt, h]

/-- Concrete instantiation of `get_id_token_cached_hit`. -/
theorem get_id_token_cached_hit_check :
    ((10 : ℤ) > 5) ∧
      get_id_token_attempt ⟨5, fun _ _ => .error ⟨500⟩, fun _ => .error ⟨500⟩⟩
        ⟨"m@x", "p", "r", 0, "tok", 10⟩ none
        = ⟨.ok "tok", ⟨"m@x", "p", "r", 0, "tok", 10⟩, []⟩ :=
  ⟨by decide, get_id_token_cached_hit _ _ none (by decide)⟩

/-- C1: when the credential exchange (`auth_refresh`) fails with an HTTP
error, the attempt raises the retryable exception exactly when no explicit
refresh token was passed, the status code is 400, and both stored mail address
and password are non-empty; in that case both cached credentials are cleared
with expiries set to now before the retry, and in every other case the
original HTTP error propagates with the credential state left exactly as the
acquisition step produced it. -/
theorem get_id_token_exchange_failure_policy
    (env : Env) (st : ClientState) (rta : Option String) (rt : String)
    (st₀ : ClientState) (calls₀ : List NetCall) (e : HTTPError)
    (hexp : ¬ st.id_token_expire > env.now)
    (hacq : acquire_refresh env st rta = ⟨.ok rt, st₀, calls₀⟩)
    (hfail : env.auth_refresh rt = .error e) :
    ((get_id_token_attempt env st rta).result = .retryExc
        ↔ rta = none ∧ e.status_code = 400
            ∧ st₀.mail_address ≠ "" ∧ st₀.password ≠ "") ∧
    ((get_id_token_attempt env st rta).result = .retryExc →
        get_id_token_attempt env st rta =
          ⟨.retryExc, clearedTokens env.now st₀, calls₀ ++ [.post_auth_refresh rt]⟩) ∧
    ((get_id_token_attempt env st rta).result ≠ .retryExc →
        get_id_token_attempt env st rta =
          ⟨.err (.httpError e), st₀, calls₀ ++ [.post_auth_refresh rt]⟩) := by
  have hbody : get_id_token_attempt env st rta =
      (if rta = none ∧ e.status_code = 400
          ∧ st₀.mail_address ≠ "" ∧ st₀.password ≠ "" then
        ⟨.retryExc, clearedTokens env.now st₀, calls₀ ++ [.post_auth_refresh rt]⟩
      else ⟨.err (.httpError e), st₀, calls₀ ++ [.post_auth_refresh rt]⟩) := by
    rw [get_id_token_attempt, if_neg hexp]
    simp only [hacq, hfail]
  rw [hbody]
  by_cases hc : rta = none ∧ e.status_code = 400
      ∧ st₀.mail_address ≠ "" ∧ st₀.password ≠ ""
  · simp [hc]
  · simp [hc]

/-- Concrete instantiation of `get_id_token_exchange_failure_policy`: expired
cached id token, valid cached refresh token, exchange rejected with status
400, mail and password stored. -/
theorem get_id_token_exchange_failure_policy_check :
    (¬ (0 : ℤ) > 5) ∧
    acquire_refresh ⟨5, fun _ _ => .ok "r2", fun _ => .error ⟨400⟩⟩
        ⟨"m@x", "p", "r0", 10, "", 0⟩ none
      = ⟨.ok "r0", ⟨"m@x", "p", "r0", 10, "", 0⟩, []⟩ ∧
    ((get_id_token_attempt ⟨5, fun _ _ => .ok "r2", fun _ => .error ⟨400⟩⟩
          ⟨"m@x", "p", "r0", 10, "", 0⟩ none).result = .retryExc
        ↔ (none : Option String) = none ∧ (400 : ℕ) = 400
            ∧ ("m@x" : String) ≠ "" ∧ ("p" : String) ≠ "") := by
  refine ⟨by decide, by decide, ?_⟩
  exact (get_id_token_exchange_failure_policy
    ⟨5, fun _ _ => .ok "r2", fun _ => .error ⟨400⟩⟩
    ⟨"m@x", "p", "r0", 10, "", 0⟩ none "r0"
    ⟨"m@x", "p", "r0", 10, "", 0⟩ [] ⟨400⟩
    (by decide) (by decide) rfl).1

/-- C5: with no credentials from config files or environment variables,
construction with everything empty raises `ValueError`; construction with a
non-empty mail address lacking the `@` character raises `ValueError`; and
construction with only a non-empty refresh token succeeds. -/
theorem init_credential_validation
    (m p r : String) (now₁ now₂ now₃ : ℤ)
    (hm : m ≠ "") (hat : ¬ hasAtSign m) (hr : r ≠ "") :
    JSONClient.init "" "" "" none none none now₁ = .error .valueError ∧
    JSONClient.init "" "" "" none (some m) (some p) now₂ = .error .valueError ∧
    ∃ st, JSONClient.init "" "" "" (some r) none none now₃ = .ok st := by
  refine ⟨by simp [JSONClient.init], ?_, ?_⟩
  · rw [JSONClient.init]
    by_cases hp : p = ""
    · simp [hp]
    · simp [hm, hp, hat]
  · rw [JSONClient.init]
    simp [hr]

/-- Concrete instantiation of `init_credential_validation`. -/
theorem init_credential_validation_check :
    (("mail" : String) ≠ "" ∧ ¬ hasAtSign "mail" ∧ ("tok" : String) ≠ "") ∧
    (JSONClient.init "" "" "" none none none 0 = .error .valueError ∧
     JSONClient.init "" "" "" none (some "mail") (some "pw") 0 = .error .valueError ∧
     ∃ st, JSONClient.init "" "" "" (some "tok") none none 0 = .ok st) :=
  ⟨by decide,
   init_credential_validation "mail" "pw" "tok" 0 0 0
     (by decide) (by decide) (by decide)⟩

/-- C7: expiry bookkeeping.  (a) Construction sets the id-token expiry to the
construction time, and sets the refresh-token expiry to construction time plus
6 days when an effective refresh token is present, and to the construction
time (already expired) otherwise.  (b) A `get_refresh_token` call that finds
the cached refresh token expired and succeeds stores the token returned by the
login and sets its expiry to now plus 6 days.  (c) A `get_id_token` attempt
that finds the cached id token expired and succeeds sets the id-token expiry
to now plus 23 hours. -/
theorem credential_expiry_windows
    (cm cp cr : String) (orf om op : Option String) (nowc : ℤ) (stc : ClientState)
    (env₁ : Env) (st₁ : ClientState) (pm pp : Option String) (tok₁ : String)
    (env₂ : Env) (st₂ : ClientState) (rta : Option String) (tok₂ : String)
    (hinit : JSONClient.init cm cp cr orf om op nowc = .ok stc)
    (hrt_exp : ¬ st₁.refresh_token_expire > env₁.now)
    (hlogin : (get_refresh_token env₁ st₁ pm pp).result = .ok tok₁)
    (hid_exp : ¬ st₂.id_token_expire > env₂.now)
    (hexch : (get_id_token_attempt env₂ st₂ rta).result = .ok tok₂) :
    (stc.id_token_expire = nowc ∧
      stc.refresh_token_expire =
        (if orf.getD cr ≠ "" then nowc + 6 * 86400 else nowc)) ∧
    ((get_refresh_token env₁ st₁ pm pp).state.refresh_token = tok₁ ∧
      (get_refresh_token env₁ st₁ pm pp).state.refresh_token_expire
        = env₁.now + 6 * 86400) ∧
    ((get_id_token_attempt env₂ st₂ rta).state.id_token = tok₂ ∧
      (get_id_token_attempt env₂ st₂ rta).state.id_token_expire
        = env₂.now + 23 * 3600) := by
  refine ⟨?_, ?_, ?_⟩
  · rw [JSONClient.init] at hinit
    by_cases h1 : ((om.getD cm) = "" ∨ (op.getD cp) = "") ∧ (orf.getD cr) = ""
    · simp [h1] at hinit
    · rw [if_neg h1] at hinit
      by_cases h2 : (om.getD cm) ≠ "" ∧ ¬ hasAtSign (om.getD cm)
      · simp [h2] at hinit
      · rw [if_neg h2] at hinit
        cases hinit
        simp
  · rw [get_refresh_token, if_neg hrt_exp] at hlogin ⊢
    by_cases h1 : (pm.getD st₁.mail_address) = "" ∨ (pp.getD st₁.password) = ""
    · simp [h1] at hlogin
    · rw [if_neg h1] at hlogin ⊢
      by_cases h2 : ¬ hasAtSign (pm.getD st₁.mail_address)
      · simp [h2] at hlogin
      · rw [if_neg h2] at hlogin ⊢
        cases hpost : env₁.auth_user (pm.getD st₁.mail_address) (pp.getD st₁.password) with
        | error e => simp [hpost] at hlogin
        | ok t =>
            simp [hpost] at hlogin ⊢
            simp [hlogin]
  · rw [get_id_token_attempt, if_neg hid_exp] at hexch ⊢
    rcases hacq : acquire_refresh env₂ st₂ rta with ⟨res, st₀, calls₀⟩
    rw [hacq] at hexch
    cases res with
    | error e => simp at hexch
    | ok rt =>
        cases hpost : env₂.auth_refresh rt with
        | ok t =>
            simp [hpost] at hexch ⊢
            simp [hexch]
        | error e =>
            simp only [hpost] at hexch
            by_cases hc : rta = none ∧ e.status_code = 400
                ∧ st₀.mail_address ≠ "" ∧ st₀.password ≠ ""
            · simp [hc] at hexch
            · simp [hc] at hexch

/-- Concrete instantiation of `credential_expiry_windows`: construct with a
refresh token at time 0, log in at time 50 after refresh expiry, exchange at
time 80 after id-token expiry. -/
theorem credential_expiry_windows_check :
    ((JSONClient.init "" "" "" (some "tok") none none 0).toOption
        = some ⟨"", "", "tok", 6 * 86400, "", 0⟩) ∧
    ((get_refresh_token ⟨50, fun _ _ => .ok "newrt", fun _ => .ok "newid"⟩
        ⟨"m@x", "p", "r0", 40, "", 0⟩ none none).state.refresh_token_expire
        = 50 + 6 * 86400) ∧
    ((get_id_token_attempt ⟨80, fun _ _ => .ok "newrt", fun _ => .ok "newid"⟩
        ⟨"m@x", "p", "r0", 100, "", 40⟩ none).state.id_token_expire
        = 80 + 23 * 3600) := by
  have h := credential_expiry_windows "" "" "" (some "tok") none none 0
      ⟨"", "", "tok", 6 * 86400, "", 0⟩
      ⟨50, fun _ _ => .ok "newrt", fun _ => .ok "newid"⟩
      ⟨"m@x", "p", "r0", 40, "", 0⟩ none none "newrt"
      ⟨80, fun _ _ => .ok "newrt", fun _ => .ok "newid"⟩
      ⟨"m@x", "p", "r0", 100, "", 40⟩ none "newid"
      (by decide) (by decide) (by decide) (by decide) (by decide)
  exact ⟨by decide, h.2.1.2, h.2.2.2⟩

/-- Model of tenacity's `wait_exponential(multiplier, min, max)` with the
default exponent base 2 (tenacity `wait.py`): the sleep computed after the
`attempt_number`-th failed attempt is
`max(max(0, min), min(multiplier * 2 ** (attempt_number - 1), max))`; over `ℕ`
the inner clamp at 0 is vacuous. -/
def wait_exponential (multiplier min_wait max_wait attempt_number : ℕ) : ℕ :=
  max min_wait (min (multiplier * 2 ^ (attempt_number - 1)) max_wait)

/-- Final outcome of the tenacity-wrapped `get_id_token` call: a returned
token, exhaustion of the attempt budget (tenacity's `RetryError`), or a
non-retryable exception. -/
inductive RetryOutcome where
  | ok (id_token : String) (st : ClientState)
  | exhausted (st : ClientState)
  | err (e : PyError) (st : ClientState)
  deriving DecidableEq, Repr

/-- Trace of the tenacity-wrapped call: final outcome, number of attempts
made, and the sleeps performed between attempts, in seconds. -/
structure RetryTrace where
  outcome : RetryOutcome
  attempts : ℕ
  sleeps : List ℕ
  deriving DecidableEq, Repr

/-- Model of the tenacity wrapper on `get_id_token` (client_json.py lines
325-329): retry only on the `TokenAuthRefreshBadRequestException`, stop after
3 attempts, sleep `wait_exponential 1 5 300` between attempts.  `envs n` is
the world observed by the `n`-th attempt (the clock advances between
attempts); the first argument counts the attempts still allowed, so the
decorated call runs with `remaining = 3`, `n = 1`. -/
def retry_go (envs : ℕ → Env) (rta : Option String) :
    ℕ → ℕ → ClientState → RetryTrace
  | 0, _, st => ⟨.exhausted st, 0, []⟩
  | remaining + 1, n, st =>
    match get_id_token_attempt (envs n) st rta with
    | ⟨.ok tok, st₁, _⟩ => ⟨.ok tok st₁, 1, []⟩
    | ⟨.err e, st₁, _⟩ => ⟨.err e st₁, 1, []⟩
    | ⟨.retryExc, st₁, _⟩ =>
      if remaining = 0 then ⟨.exhausted st₁, 1, []⟩
      else
        match retry_go envs rta remaining (n + 1) st₁ with
        | ⟨out, attempts, sleeps⟩ =>
            ⟨out, attempts + 1, wait_exponential 1 5 300 n :: sleeps⟩

/-- The tenacity-decorated `get_id_token`: up to 3 attempts starting at
attempt number 1. -/
def get_id_token_retried (envs : ℕ → Env) (rta : Option String) (st : ClientState) :
    RetryTrace :=
  retry_go envs rta 3 1 st

/-- The retry loop never makes more attempts than its budget. -/
theorem retry_go_attempts_le (envs : ℕ → Env) (rta : Option String) :
    ∀ remaining n st, (retry_go envs rta remaining n st).attempts ≤ remaining := by
  intro remaining
  induction remaining with
  | zero => intro n st; rw [retry_go]
  | succ r ih =>
      intro n st
      rw [retry_go]
      rcases h : get_id_token_attempt (envs n) st rta with ⟨res, st₁, c⟩
      cases res with
      | ok tok => simp
      | err e => simp
      | retryExc =>
          by_cases hr : r = 0
          · simp [hr]
          · simp only [if_neg hr]
            exact Nat.succ_le_succ (ih (n + 1) st₁)

/-- The retry loop sleeps at most `remaining - 1` times. -/
theorem retry_go_sleeps_length (envs : ℕ → Env) (rta : Option String) :
    ∀ remaining n st, (retry_go envs rta remaining n st).sleeps.length + 1 ≤ remaining
      ∨ (retry_go envs rta remaining n st).sleeps = [] := by
  intro remaining
  induction remaining with
  | zero => intro n st; rw [retry_go]; right; rfl
  | succ r ih =>
      intro n st
      rw [retry_go]
      rcases h : get_id_token_attempt (envs n) st rta with ⟨res, st₁, c⟩
      cases res with
      | ok tok => right; rfl
      | err e => right; rfl
      | retryExc =>
          by_cases hr : r = 0
          · simp [hr]
          · simp only [if_neg hr]
            left
            show (wait_exponential 1 5 300 n
                :: (retry_go envs rta r (n + 1) st₁).sleeps).length + 1 ≤ r + 1
            rcases ih (n + 1) st₁ with hlen | hnil
            · simp only [List.length_cons]
              omega
            · rw [hnil]
              simp only [List.length_cons, List.length_nil]
              omega

/-- Every sleep performed by the retry loop is a `wait_exponential 1 5 300`
value at some realized attempt number at least `n`. -/
theorem retry_go_sleeps_mem (envs : ℕ → Env) (rta : Option String) :
    ∀ remaining n st, ∀ x ∈ (retry_go envs rta remaining n st).sleeps,
      ∃ m, n ≤ m ∧ m < n + remaining ∧ x = wait_exponential 1 5 300 m := by
  intro remaining
  induction remaining with
  | zero => intro n st x hx; rw [retry_go] at hx; simp at hx
  | succ r ih =>
      intro n st x hx
      rw [retry_go] at hx
      rcases h : get_id_token_attempt (envs n) st rta with ⟨res, st₁, c⟩
      rw [h] at hx
      cases res with
      | ok tok => simp at hx
      | err e => simp at hx
      | retryExc =>
          by_cases hr : r = 0
          · simp [hr] at hx
          · replace hx : x ∈ (if r = 0 then (⟨.exhausted st₁, 1, []⟩ : RetryTrace)
                else ⟨(retry_go envs rta r (n + 1) st₁).outcome,
                      (retry_go envs rta r (n + 1) st₁).attempts + 1,
                      wait_exponential 1 5 300 n
                        :: (retry_go envs rta r (n + 1) st₁).sleeps⟩).sleeps := hx
            rw [if_neg hr] at hx
            rcases List.mem_cons.mp hx with hx | hx
            · exact ⟨n, le_refl n, by omega, hx⟩
            · rcases ih (n + 1) st₁ x hx with ⟨m, hm1, hm2, hm3⟩
              exact ⟨m, by omega, by omega, hm3⟩

/-- C3 amended: the tenacity wrapper around `get_id_token` makes at most 3
total attempts, and the delay before each retry is
`max(5, min(2^(n-1), 300))` seconds for attempt number `n`; since the 5-second
floor dominates the first exponential terms, the realized delay sequence is a
prefix of `[5, 5]` — not 5s/10s/20s. -/
theorem tenacity_retry_policy (envs : ℕ → Env) (rta : Option String) (st : ClientState) :
    (get_id_token_retried envs rta st).attempts ≤ 3 ∧
    ((get_id_token_retried envs rta st).sleeps = []
      ∨ (get_id_token_retried envs rta st).sleeps = [5]
      ∨ (get_id_token_retried envs rta st).sleeps = [5, 5]) ∧
    (∀ n, 1 ≤ n → n ≤ 3 → wait_exponential 1 5 300 n = 5) := by
  refine ⟨retry_go_attempts_le envs rta 3 1 st, ?_, ?_⟩
  · have hlen : (get_id_token_retried envs rta st).sleeps.length ≤ 2 := by
      rw [get_id_token_retried]
      rcases retry_go_sleeps_length envs rta 3 1 st with hl | he
      · omega
      · rw [he]; simp
    have hmem : ∀ x ∈ (get_id_token_retried envs rta st).sleeps, x = 5 := by
      intro x hx
      rcases retry_go_sleeps_mem envs rta 3 1 st x hx with ⟨m, hm1, hm2, hm3⟩
      have : m = 1 ∨ m = 2 ∨ m = 3 := by omega
      rcases this with h | h | h <;> rw [hm3, h] <;> decide
    rcases hs : (get_id_token_retried envs rta st).sleeps with _ | ⟨a, _ | ⟨b, tail⟩⟩
    · left
      rfl
    · right; left
      have ha := hmem a (by rw [hs]; simp)
      rw [ha]
    · right; right
      have ha := hmem a (by rw [hs]; simp)
      have hb := hmem b (by rw [hs]; simp)
      have htail : tail = [] := by
        rw [hs] at hlen
        simp only [List.length_cons] at hlen
        have : tail.length = 0 := by omega
        exact List.length_eq_zero.mp this
      rw [ha, hb, htail]
  · intro n h1 h2
    interval_cases n <;> decide

/-- Concrete instantiation of `tenacity_retry_policy`. -/
theorem tenacity_retry_policy_check :
    ((get_id_token_retried (fun _ => ⟨0, fun _ _ => .ok "r", fun _ => .ok "id"⟩) none
        ⟨"m@x", "p", "r0", 1000, "", 1⟩).attempts ≤ 3) ∧
    ((1 : ℕ) ≤ 1 ∧ (1 : ℕ) ≤ 3 ∧ wait_exponential 1 5 300 1 = 5) :=
  ⟨(tenacity_retry_policy (fun _ => ⟨0, fun _ _ => .ok "r", fun _ => .ok "id"⟩) none
      ⟨"m@x", "p", "r0", 1000, "", 1⟩).1,
   by decide, by decide,
   (tenacity_retry_policy (fun _ => ⟨0, fun _ _ => .ok "r", fun _ => .ok "id"⟩) none
      ⟨"m@x", "p", "r0", 1000, "", 1⟩).2.2 1 (by decide) (by decide)⟩

/-- Counterexample to the claimed 5s/10s/20s delay sequence: a run in which
every attempt fails with the retryable 400 performs the sleeps `[5, 5]`, and
the wait function yields 5 (not 10) after the second attempt. -/
theorem tenacity_backoff_counterexample :
    (get_id_token_retried
        (fun n => ⟨(n : ℤ), fun _ _ => .ok "r", fun _ => .error ⟨400⟩⟩)
        none ⟨"m@x", "p", "r0", 1000, "", 0⟩).sleeps = [5, 5] ∧
    wait_exponential 1 5 300 2 = 5 ∧ ¬ wait_exponential 1 5 300 2 = 10 := by
  decide

/-- The collection loop of `Client.get_price_range` (client.py lines 252-254):
`for future in as_completed(futures): buff.append(future.result())`.  Per-date
task outcomes (`results i` for submission index `i`) are processed in
completion order; the first `future.result()` that raises aborts the loop with
that error, otherwise the collected payloads are returned in completion
order. -/
def collect_completed {α : Type} (results : ℕ → Except HTTPError α) :
    List ℕ → Except HTTPError (List α)
  | [] => .ok []
  | i :: rest =>
    match results i with
    | .error e => .error e
    | .ok a =>
      match collect_completed results rest with
      | .error e => .error e
      | .ok l => .ok (a :: l)

/-- The first failing task outcome in completion order, if any. -/
def first_failure {α : Type} (results : ℕ → Except HTTPError α) :
    List ℕ → Option HTTPError
  | [] => none
  | i :: rest =>
    match results i with
    | .error e => some e
    | .ok _ => first_failure results rest

/-- Observable events of one `get_price_range` call: a submitted per-date task
settling (successfully or not), the method raising an error to the caller, or
the method returning the collected payloads. -/
inductive RangeEvent (α : Type) where
  | settled (i : ℕ)
  | raised (e : HTTPError)
  | returned (dfs : List α)
  deriving DecidableEq, Repr

/-- Event trace of `Client.get_price_range` (client.py lines 241-255) for
per-date outcomes `results` and completion order `order`.  All futures are
submitted before the collection loop starts, and the surrounding
`with ThreadPoolExecutor` block calls `shutdown(wait=True)` on exit, which
waits for every submitted future — none are cancelled — even when the loop
aborts with an exception; hence every task settles, in completion order,
before the return value or the exception reaches the caller. -/
def get_price_range_trace {α : Type} (results : ℕ → Except HTTPError α)
    (order : List ℕ) : List (RangeEvent α) :=
  (order.map .settled) ++
    [match collect_completed results order with
     | .error e => .raised e
     | .ok l => .returned l]

/-- Dropping the last element of a list extended by a singleton gives back the
list. -/
theorem dropLast_append_singleton {γ : Type} :
    ∀ (l : List γ) (x : γ), (l ++ [x]).dropLast = l := by
  intro l x
  induction l with
  | nil => rfl
  | cons a t ih =>
      cases t with
      | nil => rfl
      | cons b t2 => simpa using ih

/-- The collection loop propagates the first failure in completion order. -/
theorem collect_completed_of_first_failure {α : Type}
    (results : ℕ → Except HTTPError α) :
    ∀ order e, first_failure results order = some e →
      collect_completed results order = .error e := by
  intro order
  induction order with
  | nil => intro e he; simp [first_failure] at he
  | cons i rest ih =>
      intro e he
      rw [first_failure] at he
      rw [collect_completed]
      cases h : results i with
      | error e2 =>
          rw [h] at he
          simp at he
          rw [he]
      | ok a =>
          rw [h] at he
          rw [ih e he]

/-- If some task in the completion order failed, the completion order has a
first failure. -/
theorem first_failure_isSome {α : Type} (results : ℕ → Except HTTPError α) :
    ∀ order, (∃ i ∈ order, ∃ e, results i = .error e) →
      ∃ e, first_failure results order = some e := by
  intro order
  induction order with
  | nil => intro h; simp at h
  | cons i rest ih =>
      intro h
      rw [first_failure]
      cases hi : results i with
      | error e => exact ⟨e, rfl⟩
      | ok a =>
          rcases h with ⟨j, hj, e, hje⟩
          rcases List.mem_cons.mp hj with rfl | hj
          · rw [hi] at hje
            cases hje
          · exact ih ⟨j, hj, e, hje⟩

/-- A successful collection implies every task in the completion order
succeeded, and the output has one payload per completed task. -/
theorem collect_completed_ok {α : Type} (results : ℕ → Except HTTPError α) :
    ∀ order l, collect_completed results order = .ok l →
      l.length = order.length ∧ ∀ i ∈ order, ∃ a, results i = .ok a := by
  intro order
  induction order with
  | nil =>
      intro l hl
      rw [collect_completed] at hl
      cases hl
      simp
  | cons i rest ih =>
      intro l hl
      rw [collect_completed] at hl
      cases hi : results i with
      | error e => rw [hi] at hl; cases hl
      | ok a =>
          rw [hi] at hl
          cases hrest : collect_completed results rest with
          | error e => rw [hrest] at hl; cases hl
          | ok l2 =>
              rw [hrest] at hl
              cases hl
              rcases ih l2 hrest with ⟨hlen, hall⟩
              refine ⟨by simp [hlen], ?_⟩
              intro j hj
              rcases List.mem_cons.mp hj with rfl | hj
              · exact ⟨a, hi⟩
              · exact hall j hj

/-- C6: in a range fetch whose completion order covers all `n` submitted
per-date tasks, (i) a failing task makes the whole call fail with the first
failure in completion order, (ii) a successful return implies every per-date
task succeeded and contributes one payload (no partial output), and (iii) the
events preceding the raise/return are exactly the settlements of all `n`
tasks, so the error surfaces only after every scheduled task has settled. -/
theorem get_price_range_failure_policy {α : Type} (n : ℕ)
    (results : ℕ → Except HTTPError α) (order : List ℕ)
    (hperm : order.Perm (List.range n)) :
    ((∃ i, i < n ∧ ∃ e, results i = .error e) →
      ∃ e, first_failure results order = some e ∧
        collect_completed results order = .error e) ∧
    (∀ l, collect_completed results order = .ok l →
      l.length = n ∧ ∀ i, i < n → ∃ a, results i = .ok a) ∧
    ((get_price_range_trace results order).dropLast
        = order.map RangeEvent.settled ∧
      ∀ i, i < n →
        RangeEvent.settled (α := α) i ∈ (get_price_range_trace results order).dropLast) := by
  refine ⟨?_, ?_, ?_⟩
  · intro h
    rcases h with ⟨i, hi, e, he⟩
    have hmem : i ∈ order := hperm.mem_iff.mpr (List.mem_range.mpr hi)
    rcases first_failure_isSome results order ⟨i, hmem, e, he⟩ with ⟨e2, he2⟩
    exact ⟨e2, he2, collect_completed_of_first_failure results order e2 he2⟩
  · intro l hl
    rcases collect_completed_ok results order l hl with ⟨hlen, hall⟩
    refine ⟨by rw [hlen, hperm.length_eq, List.length_range], ?_⟩
    intro i hi
    exact hall i (hperm.mem_iff.mpr (List.mem_range.mpr hi))
  · refine ⟨dropLast_append_singleton _ _, ?_⟩
    intro i hi
    rw [get_price_range_trace, dropLast_append_singleton]
    exact List.mem_map_of_mem RangeEvent.settled
      (hperm.mem_iff.mpr (List.mem_range.mpr hi))

/-- Concrete instantiation of `get_price_range_failure_policy`: 5 dates, the
task at submission index 2 fails, completion order [3, 0, 2, 4, 1]. -/
theorem get_price_range_failure_policy_check :
    ([3, 0, 2, 4, 1].Perm (List.range 5)) ∧
    (∃ e, first_failure
        (fun i => if i = 2 then .error ⟨500⟩ else .ok "quotes") [3, 0, 2, 4, 1]
          = some e ∧
      collect_completed
        (fun i => if i = 2 then .error ⟨500⟩ else .ok "quotes") [3, 0, 2, 4, 1]
          = .error e) :=
  ⟨by decide,
   (get_price_range_failure_policy 5
      (fun i => if i = 2 then .error ⟨500⟩ else .ok "quotes") [3, 0, 2, 4, 1]
      (by decide)).1 ⟨2, by decide, ⟨500⟩, by decide⟩⟩

/-- Shared token-manager state observed by concurrent `get_id_token` callers:
the cached id token, its expiry, and the number of credential-exchange
(`auth_refresh`) network calls performed so far. -/
structure TMState where
  id_token : String
  id_token_expire : ℤ
  exchange_count : ℕ
  deriving DecidableEq, Repr

/-- Progress of one thread through the `get_id_token` body: `start` = about to
run the validity check of client_json.py line 339; `needsExchange` = the check
saw an expired token and the thread is about to perform the exchange (lines
342-373); `finished` = the call returned.  The code takes no lock, so threads
interleave freely between these program points. -/
inductive Phase where
  | start
  | needsExchange
  | finished
  deriving DecidableEq, Repr

/-- One atomic step of one thread: the check-and-branch, or the
exchange-and-write.  `now` is the (fixed) clock and `new_token` the id token
the upstream returns. -/
def stepThread (now : ℤ) (new_token : String) (g : TMState) (ph : Phase) :
    TMState × Phase :=
  match ph with
  | .start =>
      if g.id_token_expire > now then (g, .finished) else (g, .needsExchange)
  | .needsExchange =>
      (⟨new_token, now + 23 * 3600, g.exchange_count + 1⟩, .finished)
  | .finished => (g, .finished)

/-- Run a schedule (an interleaving given as the list of thread indices that
take successive steps) over `N` threads all executing `get_id_token`
concurrently; `phs` holds each thread's current phase. -/
def runSched (now : ℤ) (new_token : String) :
    List ℕ → TMState → List Phase → TMState × List Phase
  | [], g, phs => (g, phs)
  | t :: rest, g, phs =>
    match phs[t]? with
    | none => runSched now new_token rest g phs
    | some ph =>
        let s := stepThread now new_token g ph
        runSched now new_token rest s.1 (phs.set t s.2)

/-- Counterexample to the claimed single-flight behaviour: two concurrent
callers, expired cached token, interleaving "A checks, B checks, A exchanges,
B exchanges" — both observe the expired token before either writes, so two
credential-exchange calls occur, not exactly one. -/
theorem get_id_token_single_flight_counterexample :
    (runSched 100 "fresh" [0, 1, 0, 1] ⟨"old", 100, 0⟩
        [Phase.start, Phase.start]).1.exchange_count = 2 ∧
    ¬ (runSched 100 "fresh" [0, 1, 0, 1] ⟨"old", 100, 0⟩
        [Phase.start, Phase.start]).1.exchange_count = 1 := by
  decide

/-- Weight of one thread in the unfinished-thread count. -/
def unfinishedOne : Phase → ℕ
  | .finished => 0
  | _ => 1

/-- Number of threads that have not yet completed their `get_id_token`
call. -/
def unfinished : List Phase → ℕ
  | [] => 0
  | p :: rest => unfinished rest + unfinishedOne p

/-- Unfolding lemma for `unfinished` on a cons cell. -/
theorem unfinished_cons (p : Phase) (l : List Phase) :
    unfinished (p :: l) = unfinished l + unfinishedOne p := rfl

/-- Updating one thread's phase exchanges its weight in the unfinished
count. -/
theorem unfinished_set :
    ∀ (phs : List Phase) (t : ℕ) (a b : Phase), phs[t]? = some a →
      unfinished (phs.set t b) + unfinishedOne a
        = unfinished phs + unfinishedOne b := by
  intro phs
  induction phs with
  | nil => intro t a b h; simp at h
  | cons x xs ih =>
      intro t a b h
      cases t with
      | zero =>
          simp at h
          subst h
          simp only [List.set]
          rw [unfinished_cons, unfinished_cons]
          omega
      | succ t2 =>
          simp at h
          simp only [List.set]
          rw [unfinished_cons, unfinished_cons]
          have := ih t2 a b h
          omega

/-- All `N` initial threads are unfinished. -/
theorem unfinished_replicate : ∀ N, unfinished (List.replicate N Phase.start) = N := by
  intro N
  induction N with
  | zero => rfl
  | succ n ih => simp only [List.replicate, unfinished_cons, ih, unfinishedOne]

/-- The exchange count never decreases along a schedule. -/
theorem runSched_count_mono (now : ℤ) (new_token : String) :
    ∀ sched g phs,
      g.exchange_count ≤ (runSched now new_token sched g phs).1.exchange_count := by
  intro sched
  induction sched with
  | nil => intro g phs; rw [runSched]
  | cons t rest ih =>
      intro g phs
      rw [runSched]
      cases hget : phs[t]? with
      | none => exact ih g phs
      | some ph =>
          cases ph with
          | start =>
              by_cases hv : g.id_token_expire > now
              · simpa [stepThread, hv] using ih g (phs.set t Phase.finished)
              · simpa [stepThread, hv] using ih g (phs.set t Phase.needsExchange)
          | needsExchange =>
              simp only [stepThread]
              have h4 : g.exchange_count + 1
                  ≤ (runSched now new_token rest
                      ⟨new_token, now + 23 * 3600, g.exchange_count + 1⟩
                      (phs.set t Phase.finished)).1.exchange_count :=
                ih ⟨new_token, now + 23 * 3600, g.exchange_count + 1⟩
                  (phs.set t Phase.finished)
              omega
          | finished =>
              simpa [stepThread] using ih g (phs.set t Phase.finished)

/-- Each thread performs at most one exchange: the final exchange count plus
the remaining unfinished threads never exceeds the initial count plus the
initial unfinished threads. -/
theorem runSched_exchange_bound (now : ℤ) (new_token : String) :
    ∀ sched g phs,
      (runSched now new_token sched g phs).1.exchange_count
          + unfinished (runSched now new_token sched g phs).2
        ≤ g.exchange_count + unfinished phs := by
  intro sched
  induction sched with
  | nil => intro g phs; rw [runSched]
  | cons t rest ih =>
      intro g phs
      rw [runSched]
      cases hget : phs[t]? with
      | none => exact ih g phs
      | some ph =>
          cases ph with
          | start =>
              by_cases hv : g.id_token_expire > now
              · have h2 := ih g (phs.set t Phase.finished)
                have h3 := unfinished_set phs t Phase.start Phase.finished hget
                simp only [stepThread, if_pos hv]
                simp only [unfinishedOne] at h3
                omega
              · have h2 := ih g (phs.set t Phase.needsExchange)
                have h3 := unfinished_set phs t Phase.start Phase.needsExchange hget
                simp only [stepThread, if_neg hv]
                simp only [unfinishedOne] at h3
                omega
          | needsExchange =>
              have h2 : (runSched now new_token rest
                    ⟨new_token, now + 23 * 3600, g.exchange_count + 1⟩
                    (phs.set t Phase.finished)).1.exchange_count
                  + unfinished (runSched now new_token rest
                    ⟨new_token, now + 23 * 3600, g.exchange_count + 1⟩
                    (phs.set t Phase.finished)).2
                  ≤ g.exchange_count + 1 + unfinished (phs.set t Phase.finished) :=
                ih ⟨new_token, now + 23 * 3600, g.exchange_count + 1⟩
                  (phs.set t Phase.finished)
              have h3 := unfinished_set phs t Phase.needsExchange Phase.finished hget
              simp only [stepThread]
              simp only [unfinishedOne] at h3
              omega
          | finished =>
              have h2 := ih g (phs.set t Phase.finished)
              have h3 := unfinished_set phs t Phase.finished Phase.finished hget
              simp only [stepThread]
              simp only [unfinishedOne] at h3
              omega

/-- With a valid cached token, no interleaving changes the shared state or
puts any thread into the exchange section. -/
theorem runSched_valid_no_exchange (now : ℤ) (new_token : String) :
    ∀ sched g phs, g.id_token_expire > now →
      (∀ p ∈ phs, p ≠ Phase.needsExchange) →
      (runSched now new_token sched g phs).1 = g ∧
        ∀ p ∈ (runSched now new_token sched g phs).2, p ≠ Phase.needsExchange := by
  intro sched
  induction sched with
  | nil =>
      intro g phs hv hph
      rw [runSched]
      exact ⟨rfl, hph⟩
  | cons t rest ih =>
      intro g phs hv hph
      rw [runSched]
      cases hget : phs[t]? with
      | none => exact ih g phs hv hph
      | some ph =>
          have hmem : ph ∈ phs := List.mem_iff_getElem?.mpr ⟨t, hget⟩
          cases ph with
          | start =>
              simp only [stepThread, if_pos hv]
              refine ih g (phs.set t Phase.finished) hv ?_
              intro p hp
              rcases List.mem_or_eq_of_mem_set hp with hp | rfl
              · exact hph p hp
              · intro hc; cases hc
          | needsExchange => exact absurd rfl (hph _ hmem)
          | finished =>
              simp only [stepThread]
              refine ih g (phs.set t Phase.finished) hv ?_
              intro p hp
              rcases List.mem_or_eq_of_mem_set hp with hp | rfl
              · exact hph p hp
              · intro hc; cases hc

/-- With an expired cached token, as long as no exchange has happened the
shared state is untouched and no thread has completed its call. -/
theorem runSched_expired_needs_exchange (now : ℤ) (new_token : String) :
    ∀ sched g phs, ¬ g.id_token_expire > now →
      (∀ p ∈ phs, p ≠ Phase.finished) →
      (runSched now new_token sched g phs).1.exchange_count = g.exchange_count →
      ∀ p ∈ (runSched now new_token sched g phs).2, p ≠ Phase.finished := by
  intro sched
  induction sched with
  | nil =>
      intro g phs hv hph hcount
      rw [runSched]
      exact hph
  | cons t rest ih =>
      intro g phs hv hph hcount
      rw [runSched] at hcount ⊢
      cases hget : phs[t]? with
      | none =>
          rw [hget] at hcount
          exact ih g phs hv hph hcount
      | some ph =>
          rw [hget] at hcount
          have hmem : ph ∈ phs := List.mem_iff_getElem?.mpr ⟨t, hget⟩
          cases ph with
          | start =>
              simp only [stepThread, if_neg hv] at hcount ⊢
              refine ih g (phs.set t Phase.needsExchange) hv ?_ hcount
              intro p hp
              rcases List.mem_or_eq_of_mem_set hp with hp | rfl
              · exact hph p hp
              · intro hc; cases hc
          | needsExchange =>
              simp only [stepThread] at hcount
              have h4 : g.exchange_count + 1
                  ≤ (runSched now new_token rest
                      ⟨new_token, now + 23 * 3600, g.exchange_count + 1⟩
                      (phs.set t Phase.finished)).1.exchange_count :=
                runSched_count_mono now new_token rest
                  ⟨new_token, now + 23 * 3600, g.exchange_count + 1⟩
                  (phs.set t Phase.finished)
              omega
          | finished => exact absurd rfl (hph _ hmem)

/-- C8 amended: for `N` callers running `get_id_token` concurrently with no
lock, (i) when the cached token is valid no interleaving changes the shared
state — zero exchange calls; (ii) when it is expired, any interleaving in
which at least one caller has completed has performed at least one exchange
call; (iii) every interleaving performs at most `N` exchange calls — but not
exactly one: see the recorded interleaving of two callers that performs
two. -/
theorem get_id_token_concurrency (now : ℤ) (new_token : String) (N : ℕ)
    (sched : List ℕ) (g : TMState) :
    (g.id_token_expire > now →
      (runSched now new_token sched g (List.replicate N Phase.start)).1 = g) ∧
    (¬ g.id_token_expire > now →
      (∃ p ∈ (runSched now new_token sched g (List.replicate N Phase.start)).2,
          p = Phase.finished) →
      g.exchange_count + 1
        ≤ (runSched now new_token sched g (List.replicate N Phase.start)).1.exchange_count) ∧
    (runSched now new_token sched g (List.replicate N Phase.start)).1.exchange_count
        ≤ g.exchange_count + N := by
  refine ⟨?_, ?_, ?_⟩
  · intro hv
    refine (runSched_valid_no_exchange now new_token sched g _ hv ?_).1
    intro p hp
    rw [List.eq_of_mem_replicate hp]
    intro hc; cases hc
  · intro hv hfin
    by_contra hlt
    have hmono := runSched_count_mono now new_token sched g (List.replicate N Phase.start)
    have hcount : (runSched now new_token sched g (List.replicate N Phase.start)).1.exchange_count
        = g.exchange_count := by omega
    have hnofin := runSched_expired_needs_exchange now new_token sched g
      (List.replicate N Phase.start) hv
      (by intro p hp; rw [List.eq_of_mem_replicate hp]; intro hc; cases hc) hcount
    rcases hfin with ⟨p, hp, rfl⟩
    exact hnofin _ hp rfl
  · have := runSched_exchange_bound now new_token sched g (List.replicate N Phase.start)
    rw [unfinished_replicate] at this
    omega

/-- Concrete instantiation of `get_id_token_concurrency`: two callers with a
valid cached token leave the state untouched. -/
theorem get_id_token_concurrency_check :
    ((100 : ℤ) > 0) ∧
      (runSched 0 "fresh" [0, 1, 0, 1] ⟨"tok", 100, 0⟩
        (List.replicate 2 Phase.start)).1 = ⟨"tok", 100, 0⟩ :=
  ⟨by decide,
   (get_id_token_concurrency 0 "fresh" 2 [0, 1, 0, 1] ⟨"tok", 100, 0⟩).1 (by decide)⟩

/-- A wall-clock Python `datetime`: minutes since the epoch as read on the
wall clock (what `strftime` formats), plus the fixed utcoffset in minutes for
an aware value (`none` for a naive one). -/
structure PyDatetime where
  minutes : ℤ
  tz : Option ℤ
  deriving DecidableEq, Repr

/-- Python `datetime` ordering: naive values compare by wall clock, aware
values compare by instant (wall clock minus offset), and comparing a naive
value with an aware one raises `TypeError`. -/
def dtLe (a b : PyDatetime) : Except PyError Bool :=
  match a.tz, b.tz with
  | none, none => .ok (decide (a.minutes ≤ b.minutes))
  | some ta, some tb => .ok (decide (a.minutes - ta ≤ b.minutes - tb))
  | _, _ => .error .typeError

/-- `current_date + timedelta(days=step_days)`: wall-clock arithmetic, the
tzinfo is preserved. -/
def addDays (a : PyDatetime) (step_days : ℤ) : PyDatetime :=
  { a with minutes := a.minutes + 1440 * step_days }

/-- Day number of the civil date `y-m-d` in the proleptic Gregorian calendar
(day 0 is 1970-01-01), by the standard days-from-civil algorithm. -/
def daysFromCivil (y m d : ℕ) : ℤ :=
  let yy := if m ≤ 2 then y - 1 else y
  let era := yy / 400
  let yoe := yy - era * 400
  let mp := if m ≤ 2 then m + 9 else m - 3
  let doy := (153 * mp + 2) / 5 + (d - 1)
  let doe := yoe * 365 + yoe / 4 - yoe / 100 + doy
  ((era * 146097 + doe : ℕ) : ℤ) - 719468

/-- Gregorian leap-year rule. -/
def isLeapYear (y : ℕ) : Bool := (y % 4 == 0 && y % 100 != 0) || (y % 400 == 0)

/-- Days in a month of the proleptic Gregorian calendar. -/
def daysInMonth (y m : ℕ) : ℕ :=
  if m = 2 then (if isLeapYear y then 29 else 28)
  else if m = 4 ∨ m = 6 ∨ m = 9 ∨ m = 11 then 30
  else 31

/-- Field ranges accepted by `strptime` for a pure date. -/
def isValidDate (y m d : ℕ) : Bool :=
  decide (1 ≤ y) && decide (1 ≤ m) && decide (m ≤ 12)
    && decide (1 ≤ d) && decide (d ≤ daysInMonth y m)

/-- The two date-string layouts accepted by `date_range` (client_json.py
lines 46-58), `"YYYYMMDD"` and `"YYYY-MM-DD"`, represented by their numeric
fields; the source dispatches on whether the string contains a hyphen and
parses with the corresponding `strptime` format, and both layouts denote the
same civil date. -/
inductive DateStr where
  | compact (y m d : ℕ)
  | hyphenated (y m d : ℕ)
  deriving DecidableEq, Repr

/-- A Python value passed as `start_date` or `end_date`.  `timestamp` stands
for `pandas.Timestamp`, a proper subclass of `datetime` — so
`type(x) is datetime` is false for it; `other` is any other runtime type. -/
inductive PyVal where
  | str (s : DateStr)
  | datetime (d : PyDatetime)
  | timestamp (d : PyDatetime)
  | other
  deriving DecidableEq, Repr

/-- `datetime.strptime` on a pure date: midnight, naive, of the given civil
date; raises `ValueError` when the fields do not form a date. -/
def strptime_ymd (y m d : ℕ) : Except PyError PyDatetime :=
  if isValidDate y m d then .ok ⟨1440 * daysFromCivil y m d, none⟩
  else .error .valueError

/-- The argument-normalization step of `date_range` (client_json.py lines
46-60): parse strings by layout, accept values of exact type `datetime`
unchanged (`type(x) is datetime`), and raise `TypeError` for every other
runtime type, including `datetime` subclasses such as `pandas.Timestamp`. -/
def coerce_datetime_like (v : PyVal) : Except PyError PyDatetime :=
  match v with
  | .str (.compact y m d) => strptime_ymd y m d
  | .str (.hyphenated y m d) => strptime_ymd y m d
  | .datetime d => .ok d
  | .timestamp _ => .error .typeError
  | .other => .error .typeError

/-- Observation of the `date_range` generator after a bounded number of loop
iterations: the dates yielded so far, together with whether the loop exited
normally, is still running (`fuelOut`), or raised. -/
inductive GenOut where
  | done (ds : List PyDatetime)
  | fuelOut (ds : List PyDatetime)
  | err (e : PyError) (ds : List PyDatetime)
  deriving DecidableEq, Repr

/-- The `while current_date <= end_date` loop of `date_range` (client_json.py
lines 62-70): yield `current_date`, then advance it by `step_days` days.
`fuel` bounds the observed iterations; a real run corresponds to `fuel` large
enough that the outcome is `done`, while `fuelOut` at every `fuel` means the
loop never exits. -/
def date_range_loop (end_date : PyDatetime) (step_days : ℤ) :
    ℕ → PyDatetime → GenOut
  | 0, _ => .fuelOut []
  | fuel + 1, current_date =>
    match dtLe current_date end_date with
    | .error e => .err e []
    | .ok false => .done []
    | .ok true =>
      match date_range_loop end_date step_days fuel (addDays current_date step_days) with
      | .done ds => .done (current_date :: ds)
      | .fuelOut ds => .fuelOut (current_date :: ds)
      | .err e ds => .err e (current_date :: ds)

/-- Model of `date_range` (client_json.py lines 35-70): normalize both bounds,
then run the yield loop. -/
def date_range (start_date end_date : PyVal) (step_days : ℤ) (fuel : ℕ) : GenOut :=
  match coerce_datetime_like start_date with
  | .error e => .err e []
  | .ok s =>
    match coerce_datetime_like end_date with
    | .error e => .err e []
    | .ok e2 => date_range_loop e2 step_days fuel s

/-- Calendar-date key of a yielded datetime: the civil day its wall clock
falls on, as formatted by `strftime("%Y%m%d")`. -/
def strftimeDay (a : PyDatetime) : ℤ := Int.fdiv a.minutes 1440

/-- Keys of the dates yielded by a `date_range` observation. -/
def genKeys : GenOut → List ℤ
  | .done ds => ds.map strftimeDay
  | .fuelOut ds => ds.map strftimeDay
  | .err _ ds => ds.map strftimeDay

/-- The supported midnight representations of the civil day `y-m-d`: compact
string, hyphenated string, naive midnight datetime. -/
def midnightReps (y m d : ℕ) : List PyVal :=
  [.str (.compact y m d), .str (.hyphenated y m d),
   .datetime ⟨1440 * daysFromCivil y m d, none⟩]

/-- Two datetimes are comparable exactly when both are naive or both are
aware. -/
def comparable (a b : PyDatetime) : Bool := a.tz.isSome == b.tz.isSome

/-- The instant a datetime denotes, in minutes: wall clock minus utcoffset. -/
def instMinutes (a : PyDatetime) : ℤ := a.minutes - (a.tz.getD 0)

/-- On comparable datetimes the Python ordering is the instant ordering. -/
theorem dtLe_comparable (a b : PyDatetime) (h : comparable a b = true) :
    dtLe a b = .ok (decide (instMinutes a ≤ instMinutes b)) := by
  unfold comparable at h
  unfold dtLe instMinutes
  cases ha : a.tz with
  | none =>
      cases hb : b.tz with
      | none => simp
      | some tb => simp [ha, hb] at h
  | some ta =>
      cases hb : b.tz with
      | none => simp [ha, hb] at h
      | some tb => simp

/-- On incomparable datetimes the Python ordering raises `TypeError`. -/
theorem dtLe_incomparable (a b : PyDatetime) (h : comparable a b = false) :
    dtLe a b = .error .typeError := by
  unfold comparable at h
  unfold dtLe
  cases ha : a.tz with
  | none =>
      cases hb : b.tz with
      | none => simp [ha, hb] at h
      | some tb => rfl
  | some ta =>
      cases hb : b.tz with
      | none => rfl
      | some tb => simp [ha, hb] at h

/-- Number of dates the loop yields from `s` for a terminating
configuration: `floor((end - start) / step_days) + 1` when `start ≤ end`
(difference measured in days, i.e. wall minutes over `1440 * step_days`), and
0 when `start > end`. -/
def loopCount (s e : PyDatetime) (step_days : ℤ) : ℕ :=
  if instMinutes s ≤ instMinutes e then
    (instMinutes e - instMinutes s).toNat / (1440 * step_days).toNat + 1
  else 0

/-- Advancing by `step_days` days advances the instant by `1440 * step_days`
minutes. -/
theorem instMinutes_addDays (a : PyDatetime) (k : ℤ) :
    instMinutes (addDays a k) = instMinutes a + 1440 * k := by
  simp only [instMinutes, addDays]
  omega

/-- With a positive step and enough fuel, the loop exits having yielded
exactly `loopCount` dates. -/
theorem date_range_loop_done (e : PyDatetime) (step : ℤ) (hstep : 1 ≤ step) :
    ∀ fuel s, comparable s e = true → loopCount s e step + 1 ≤ fuel →
      ∃ ds, date_range_loop e step fuel s = .done ds ∧
        ds.length = loopCount s e step := by
  intro fuel
  induction fuel with
  | zero => intro s hc hf; exact absurd hf (by omega)
  | succ f ih =>
      intro s hc hf
      rw [date_range_loop, dtLe_comparable s e hc]
      by_cases hle : instMinutes s ≤ instMinutes e
      · rw [decide_eq_true hle]
        have hc2 : comparable (addDays s step) e = true := hc
        have hinst := instMinutes_addDays s step
        have key : loopCount s e step = loopCount (addDays s step) e step + 1 := by
          rw [loopCount, loopCount, hinst, if_pos hle]
          by_cases hle2 : instMinutes s + 1440 * step ≤ instMinutes e
          · rw [if_pos hle2]
            have hbpos : 0 < (1440 * step).toNat := by omega
            have hble : (1440 * step).toNat
                ≤ (instMinutes e - instMinutes s).toNat := by omega
            rw [Nat.div_eq ((instMinutes e - instMinutes s).toNat)
                ((1440 * step).toNat), if_pos ⟨hbpos, hble⟩]
            have hsub : (instMinutes e - (instMinutes s + 1440 * step)).toNat
                = (instMinutes e - instMinutes s).toNat - (1440 * step).toNat := by
              omega
            rw [hsub]
          · rw [if_neg hle2]
            have hblt : (instMinutes e - instMinutes s).toNat
                < (1440 * step).toNat := by omega
            rw [Nat.div_eq ((instMinutes e - instMinutes s).toNat)
                ((1440 * step).toNat), if_neg (by omega)]
        have hf2 : loopCount (addDays s step) e step + 1 ≤ f := by omega
        rcases ih (addDays s step) hc2 hf2 with ⟨ds, hds, hlen⟩
        rw [hds]
        refine ⟨s :: ds, rfl, ?_⟩
        rw [List.length_cons, hlen, key]
      · rw [decide_eq_false hle]
        refine ⟨[], rfl, ?_⟩
        rw [loopCount, if_neg hle]
        rfl

/-- With a non-positive step and `start ≤ end`, the loop never exits: after
any number of iterations it is still running and has yielded one date per
iteration. -/
theorem date_range_loop_nonterm (e : PyDatetime) (step : ℤ) (hstep : step ≤ 0) :
    ∀ fuel s, comparable s e = true → instMinutes s ≤ instMinutes e →
      ∃ ds, date_range_loop e step fuel s = .fuelOut ds ∧ ds.length = fuel := by
  intro fuel
  induction fuel with
  | zero => intro s hc hle; exact ⟨[], rfl, rfl⟩
  | succ f ih =>
      intro s hc hle
      rw [date_range_loop, dtLe_comparable s e hc, decide_eq_true hle]
      have hc2 : comparable (addDays s step) e = true := hc
      have hle2 : instMinutes (addDays s step) ≤ instMinutes e := by
        have hinst := instMinutes_addDays s step
        omega
      rcases ih (addDays s step) hc2 hle2 with ⟨ds, hds, hlen⟩
      rw [hds]
      exact ⟨s :: ds, rfl, by rw [List.length_cons, hlen]⟩

/-- C10: for comparable exact-`datetime` bounds, `date_range` with
`step_days ≥ 1` terminates and yields exactly
`floor((end - start) / step_days) + 1` dates when `start ≤ end` and zero when
`start > end` (that is `loopCount`); while for `step_days ≤ 0` with
`start ≤ end` the loop never terminates — after every fuel bound it is still
running, one yielded date per iteration. -/
theorem date_range_termination (s e : PyDatetime) (step : ℤ)
    (hc : comparable s e = true) :
    (1 ≤ step → ∀ fuel, loopCount s e step + 1 ≤ fuel →
      ∃ ds, date_range (.datetime s) (.datetime e) step fuel = .done ds ∧
        ds.length = loopCount s e step) ∧
    (step ≤ 0 → instMinutes s ≤ instMinutes e →
      ∀ fuel, ∃ ds,
        date_range (.datetime s) (.datetime e) step fuel = .fuelOut ds ∧
          ds.length = fuel) := by
  constructor
  · intro hstep fuel hf
    simpa [date_range, coerce_datetime_like] using
      date_range_loop_done e step hstep fuel s hc hf
  · intro hstep hle fuel
    simpa [date_range, coerce_datetime_like] using
      date_range_loop_nonterm e step hstep fuel s hc hle

/-- Concrete instantiation of `date_range_termination`: two days apart at
step 1 yields 3 dates. -/
theorem date_range_termination_check :
    (comparable ⟨0, none⟩ ⟨2880, none⟩ = true) ∧ ((1 : ℤ) ≤ 1) ∧
    (loopCount ⟨0, none⟩ ⟨2880, none⟩ 1 + 1 ≤ 10) ∧
    (∃ ds, date_range (.datetime ⟨0, none⟩) (.datetime ⟨2880, none⟩) 1 10
        = .done ds ∧ ds.length = loopCount ⟨0, none⟩ ⟨2880, none⟩ 1) :=
  ⟨by decide, by decide, by decide,
   (date_range_termination ⟨0, none⟩ ⟨2880, none⟩ 1 (by decide)).1
     (by decide) 10 (by decide)⟩

/-- Values of runtime type neither `str` nor exactly `datetime` are rejected
by the normalization step. -/
theorem coerce_rejects (w : PyVal)
    (h1 : ∀ s, w ≠ .str s) (h2 : ∀ d, w ≠ .datetime d) :
    coerce_datetime_like w = .error .typeError := by
  cases w with
  | str s => exact absurd rfl (h1 s)
  | datetime d => exact absurd rfl (h2 d)
  | timestamp d => rfl
  | other => rfl

/-- C9: `date_range` raises `TypeError` before yielding any date whenever
either bound's runtime type is neither `str` nor exactly `datetime` — in
particular for `pandas.Timestamp` values, which are a proper subclass of
`datetime` and fail the exact `type(x) is datetime` check. -/
theorem date_range_exact_type_check (v w : PyVal) (step : ℤ) (fuel : ℕ)
    (h1 : ∀ s, w ≠ .str s) (h2 : ∀ d, w ≠ .datetime d) :
    date_range w v step fuel = .err .typeError [] ∧
    (∀ pd, coerce_datetime_like v = .ok pd →
      date_range v w step fuel = .err .typeError []) := by
  constructor
  · rw [date_range, coerce_rejects w h1 h2]
  · intro pd hv
    rw [date_range, hv, coerce_rejects w h1 h2]

/-- Concrete instantiation of `date_range_exact_type_check`: a
`pandas.Timestamp` bound is rejected with `TypeError`. -/
theorem date_range_exact_type_check_check :
    ((∀ s, PyVal.timestamp ⟨0, none⟩ ≠ .str s)
      ∧ (∀ d, PyVal.timestamp ⟨0, none⟩ ≠ .datetime d)) ∧
    date_range (.timestamp ⟨0, none⟩) (.str (.compact 2022 9 8)) 1 5
      = .err .typeError [] :=
  by
  refine ⟨⟨?_, ?_⟩, ?_⟩
  · intro s h; cases h
  · intro d h; cases h
  · exact (date_range_exact_type_check (.str (.compact 2022 9 8))
      (.timestamp ⟨0, none⟩) 1 5
      (fun s h => by cases h) (fun d h => by cases h)).1

/-- C4 amended, positive part: all midnight representations of the same two
civil days (compact string, hyphenated string, naive midnight datetime)
produce the same `date_range` behaviour, and mixing a naive bound with an
aware one raises `TypeError` before any date is yielded. -/
theorem date_range_representation_invariance :
    (∀ y m d y2 m2 d2 : ℕ, isValidDate y m d → isValidDate y2 m2 d2 →
      ∀ a ∈ midnightReps y m d, ∀ b ∈ midnightReps y2 m2 d2, ∀ step fuel,
        date_range a b step fuel
          = date_range_loop ⟨1440 * daysFromCivil y2 m2 d2, none⟩ step fuel
              ⟨1440 * daysFromCivil y m d, none⟩) ∧
    (∀ a b : PyDatetime, comparable a b = false → ∀ step fuel, 1 ≤ fuel →
      date_range (.datetime a) (.datetime b) step fuel = .err .typeError []) := by
  constructor
  · intro y m d y2 m2 d2 hv1 hv2 a ha b hb step fuel
    simp only [midnightReps, List.mem_cons, List.not_mem_nil, or_false] at ha hb
    rcases ha with rfl | rfl | rfl <;> rcases hb with rfl | rfl | rfl <;>
      simp [date_range, coerce_datetime_like, strptime_ymd, hv1, hv2]
  · intro a b hcomp step fuel hfuel
    cases fuel with
    | zero => exact absurd hfuel (by omega)
    | succ f =>
        rw [date_range]
        simp only [coerce_datetime_like]
        rw [date_range_loop, dtLe_incomparable a b hcomp]

/-- Concrete instantiation of `date_range_representation_invariance`. -/
theorem date_range_representation_invariance_check :
    (isValidDate 2020 2 27 = true) ∧ (isValidDate 2020 3 2 = true) ∧
    date_range (.str (.hyphenated 2020 2 27))
        (.datetime ⟨1440 * daysFromCivil 2020 3 2, none⟩) 1 10
      = date_range_loop ⟨1440 * daysFromCivil 2020 3 2, none⟩ 1 10
          ⟨1440 * daysFromCivil 2020 2 27, none⟩ :=
  ⟨by decide, by decide,
   date_range_representation_invariance.1 2020 2 27 2020 3 2 (by decide) (by decide)
     (.str (.hyphenated 2020 2 27)) (by decide)
     (.datetime ⟨1440 * daysFromCivil 2020 3 2, none⟩) (by decide) 1 10⟩

/-- Counterexample to C4 as stated: the compact-string representation of
2020-02-27 and a `datetime` for the same day carrying the time-of-day 15:00
(900 minutes past midnight) yield different calendar-key sequences against
the same end bound 2020-03-02 — the datetime start shifts every yield and
drops the final day. -/
theorem date_range_time_of_day_counterexample :
    genKeys (date_range (.str (.compact 2020 2 27)) (.str (.compact 2020 3 2)) 1 10)
      ≠ genKeys (date_range
          (.datetime ⟨1440 * daysFromCivil 2020 2 27 + 900, none⟩)
          (.str (.compact 2020 3 2)) 1 10) := by
  decide

end Jquants
